import Mathlib

/-!
Shallow embedding of the Watch2Gether room session coordinator:
the `Room` / `Rooms` classes of `server/lib/rooms.js` and the Socket.IO
event handlers of `server.js` (`room:join`, `chat:message`, `host:action`,
`host:take`, `disconnecting`, and the `/upload` room notification).

Modelling conventions:
- `uuidv4()` is modelled by a global fresh counter (`nextId`) threaded
  through the server state; a `Nat` stands for the generated uuid string.
  Every call site that generates a uuid consumes one counter value.
- `Math.random()` inside the guest-name generator is modelled by an oracle
  argument `rnd : Fin 900` standing for `Math.floor(Math.random() * 900)`;
  for a real draw in [0,1) that floor is exactly some value in 0..899, and
  `Math.floor(100 + Math.random() * 900) = 100 + Math.floor(Math.random() * 900)`.
- A JS object keyed by uuid strings (`this.users = {}`) preserves insertion
  order for `Object.values`, so membership is a `List User`: append on add,
  filter on delete, positional update on rename.
- Wall-clock fields (`joinedAt`, log `time`) are not modelled; no claim
  inspects them.
- Playback times are `Option Int`: `none` is JS `undefined` (a seek without
  a `time` stores `undefined`), and the integers stand for JS numbers.
- Socket.IO emissions are collected as a list of `Emit` values recording
  target and event name; payload contents are not modelled.
- The acknowledgement callback result is `Option CbResult`; `none` means
  the handler returned without ever invoking the callback.
-/

/-- A member record, as built by `Room.addUser` in `rooms.js`. -/
structure User where
  id : Nat
  name : String
  socketId : Nat
deriving DecidableEq, Repr

/-- An activity-log entry, as built by `Room.addLog` in `rooms.js`. -/
structure LogEntry where
  id : Nat
  type : String
  text : String
deriving DecidableEq, Repr

/-- `{ playing: bool, time: seconds }`; `time = none` models JS `undefined`. -/
structure PlaybackState where
  playing : Bool
  time : Option Int
deriving DecidableEq, Repr

/-- The slice of upload metadata the coordinator stores (`room.video`). -/
structure VideoMeta where
  filename : String
deriving DecidableEq, Repr

/-- The `Room` class of `rooms.js`. -/
structure Room where
  id : String
  users : List User
  hostId : Option Nat
  video : Option VideoMeta
  logs : List LogEntry
  playbackState : PlaybackState
deriving DecidableEq, Repr

/-- The `Room` constructor. -/
def Room.mkNew (id : String) : Room :=
  { id := id, users := [], hostId := none, video := none, logs := [],
    playbackState := { playing := false, time := some 0 } }

/-- `Room.addUser`: `username || Guest-<100..999>` (no trimming in the
source); the fresh uuid is `freshId`. Returns the mutated room and the
created user. -/
def Room.addUser (r : Room) (freshId socketId : Nat) (username : String)
    (rnd : Fin 900) : Room × User :=
  let name := if username = "" then "Guest-" ++ toString (100 + rnd.val) else username
  let user : User := { id := freshId, name := name, socketId := socketId }
  ({ r with users := r.users ++ [user] }, user)

/-- `Room.removeUser`: `delete this.users[userId]` (idempotent). -/
def Room.removeUser (r : Room) (userId : Nat) : Room :=
  { r with users := r.users.filter (fun u => u.id != userId) }

/-- `Room.getUser`. -/
def Room.getUser (r : Room) (userId : Nat) : Option User :=
  r.users.find? (fun u => u.id == userId)

/-- `Room.getUserBySocket`: first member (in insertion order) owning the
socket. -/
def Room.getUserBySocket (r : Room) (socketId : Nat) : Option User :=
  r.users.find? (fun u => u.socketId == socketId)

/-- `Room.anyUser`: first remaining member or null. -/
def Room.anyUser (r : Room) : Option User :=
  r.users.head?

/-- `Room.setHost`. -/
def Room.setHost (r : Room) (userId : Nat) : Room :=
  { r with hostId := some userId }

/-- `Room.changeUsername`: in-place rename if present (position kept). -/
def Room.changeUsername (r : Room) (userId : Nat) (newName : String) : Room :=
  { r with users :=
      r.users.map (fun u => if u.id == userId then { u with name := newName } else u) }

/-- `Room.addLog`: build the entry (`entry.type || 'info'`), push to the
tail, and `shift()` the head when the length exceeds 500. -/
def Room.addLog (r : Room) (freshId : Nat) (type text : String) : Room × LogEntry :=
  let log : LogEntry :=
    { id := freshId, type := if type = "" then "info" else type, text := text }
  let pushed := r.logs ++ [log]
  ({ r with logs := if pushed.length > 500 then pushed.tail else pushed }, log)

/-- The `Rooms` directory: `Map` from room id to room, as an association
list in insertion order. `Rooms.get` is `map.get`. -/
def Rooms.get (rs : List (String × Room)) (id : String) : Option Room :=
  (rs.find? (fun p => p.1 == id)).map Prod.snd

/-- `map.set`: replace the value at an existing key (position kept) or
append a new binding. -/
def Rooms.set : List (String × Room) → String → Room → List (String × Room)
  | [], k, r => [(k, r)]
  | p :: ps, k, r => if p.1 == k then (k, r) :: ps else p :: Rooms.set ps k r

/-- `Rooms.create`: `new Room(id || uuidv4())` and insert it; the uuid is
consumed only when `id` is falsy. Returns the updated directory, the new
room, and the next fresh counter. -/
def Rooms.create (rs : List (String × Room)) (id : String) (fresh : Nat) :
    List (String × Room) × Room × Nat :=
  let rid := if id = "" then "uuid-" ++ toString fresh else id
  let fresh := if id = "" then fresh + 1 else fresh
  let room := Room.mkNew rid
  (Rooms.set rs rid room, room, fresh)

/-- A Socket.IO emission: `io.to(room).emit`, `socket.to(room).emit`
(everyone in the room except the sender), or `socket.emit`. -/
inductive Emit where
  | toRoom (roomId : String) (event : String)
  | toOthers (roomId : String) (socketId : Nat) (event : String)
  | toSelf (socketId : Nat) (event : String)
deriving DecidableEq, Repr

/-- Acknowledgement callback payloads: `{ok:true, user}` on join,
`{ok:true}`, or `{ok:false, error:e}`. -/
inductive CbResult where
  | okJoin (user : User)
  | ok
  | err (e : String)
deriving DecidableEq, Repr

/-- The whole in-memory server state: the room directory, the set of
(socket, room) channel memberships maintained by `socket.join` (Socket.IO
keeps these as a set, consulted by the `disconnecting` handler), and the
fresh-uuid counter. -/
structure ServerState where
  rooms : List (String × Room)
  socketRooms : List (Nat × String)
  nextId : Nat
deriving DecidableEq, Repr

def ServerState.init : ServerState := { rooms := [], socketRooms := [], nextId := 0 }

/-- `String.padStart(2, '0')` for the strings produced below. -/
def padStart2 (s : String) : String :=
  if s.length ≥ 2 then s else if s.length = 1 then "0" ++ s else "00"

/-- `formatTime` from `server.js`, exact on the defined, non-negative
integral seconds that occur in normal operation; `undefined` or negative
inputs (JS `NaN` propagation / signed `%`) are collapsed to a marker
string, which no claim inspects. -/
def formatTime (sec : Option Int) : String :=
  match sec with
  | none => "NaN:NaN"
  | some sec =>
    if sec < 0 then "-:-"
    else
      let n := sec.toNat
      let s := padStart2 (toString (n % 60))
      let m := padStart2 (toString ((n / 60) % 60))
      let h := n / 3600
      if h > 0 then toString h ++ ":" ++ m ++ ":" ++ s else m ++ ":" ++ s

/-- JS `String.prototype.trim`: strip leading and trailing whitespace.
Executable model over the character list (JS Unicode whitespace classes
collapsed to `Char.isWhitespace`). -/
def jsTrim (s : String) : String :=
  ⟨((s.data.dropWhile Char.isWhitespace).reverse.dropWhile Char.isWhitespace).reverse⟩

/-- JS `String.prototype.startsWith`. -/
def jsStartsWith (s pre : String) : Bool :=
  pre.data.isPrefixOf s.data

/-- JS `String.prototype.slice(n)` (for ASCII payloads, where UTF-16 code
units and characters coincide). -/
def jsDrop (s : String) (n : Nat) : String :=
  ⟨s.data.drop n⟩

/-- The room mutations of the `room:join` handler, after the room is
resolved: `addUser`, host auto-assignment with its `host_assigned` log when
the room has no host, then the `user_joined` log. Returns the mutated room,
the created user, and the advanced fresh counter. -/
def joinRoomUpdate (room : Room) (n socketId : Nat) (username : String)
    (rnd : Fin 900) : Room × User × Nat :=
  let au := room.addUser n socketId username rnd
  let room1 := au.1
  let user := au.2
  let hb : Room × Nat :=
    match room1.hostId with
    | none =>
      ((room1.setHost user.id).addLog (n + 1) "host_assigned"
        (user.name ++ " became host") |>.1, n + 2)
    | some _ => (room1, n + 1)
  ((hb.1.addLog hb.2 "user_joined" (user.name ++ " joined")).1, user, hb.2 + 1)

/-- The `room:join` handler: resolve or lazily create the room, add the
member, `socket.join(roomId)`, auto-assign host if absent, log, emit the
state snapshot to the joiner, the join notice to the others, and the member
list to the room; acknowledge with the created user. -/
def stepJoin (s : ServerState) (roomId username : String) (socketId : Nat)
    (rnd : Fin 900) : ServerState × Option CbResult × List Emit :=
  let g : List (String × Room) × Room × String × Nat :=
    match Rooms.get s.rooms roomId with
    | some r => (s.rooms, r, roomId, s.nextId)
    | none =>
      let c := Rooms.create s.rooms roomId s.nextId
      (c.1, c.2.1, c.2.1.id, c.2.2)
  let j := joinRoomUpdate g.2.1 g.2.2.2 socketId username rnd
  let socketRooms :=
    if s.socketRooms.any (fun p => p.1 == socketId && p.2 == roomId) then s.socketRooms
    else s.socketRooms ++ [(socketId, roomId)]
  ({ rooms := Rooms.set g.1 g.2.2.1 j.1, socketRooms := socketRooms,
     nextId := j.2.2 },
   some (CbResult.okJoin j.2.1),
   [Emit.toSelf socketId "room:state",
    Emit.toOthers roomId socketId "room:user_joined",
    Emit.toRoom roomId "room:user_list"])

/-- The `chat:message` handler. Unknown room or member: bare `return`,
callback never invoked. A trimmed text starting with `/name` is a rename
command: the candidate is the remainder after 5 characters, trimmed;
non-empty and at most 32 characters renames, logs `name_changed` and
broadcasts, else the call fails `invalid_name` with no mutation. Otherwise
a chat message is built (consuming a uuid), a `chat` log appended, and the
message broadcast. -/
def stepChat (s : ServerState) (roomId : String) (userId : Nat) (text : String) :
    ServerState × Option CbResult × List Emit :=
  match Rooms.get s.rooms roomId with
  | none => (s, none, [])
  | some room =>
    match room.getUser userId with
    | none => (s, none, [])
    | some user =>
      if jsStartsWith (jsTrim text) "/name" then
        let newName := jsTrim (jsDrop (jsTrim text) 5)
        if newName ≠ "" ∧ newName.length ≤ 32 then
          let room2 := ((room.changeUsername userId newName).addLog s.nextId
            "name_changed" (user.name ++ " changed name to " ++ newName)).1
          ({ s with rooms := Rooms.set s.rooms roomId room2, nextId := s.nextId + 1 },
           some CbResult.ok,
           [Emit.toRoom roomId "chat:log", Emit.toRoom roomId "room:user_list"])
        else
          (s, some (CbResult.err "invalid_name"), [])
      else
        let room1 := (room.addLog (s.nextId + 1) "chat"
          (user.name ++ ": " ++ text)).1
        ({ s with rooms := Rooms.set s.rooms roomId room1, nextId := s.nextId + 2 },
         some CbResult.ok,
         [Emit.toRoom roomId "chat:message"])

/-- The `host:action` handler: missing room fails `room_not_found`; a
caller other than the current host fails `not_host` with no mutation and no
emission; `play` / `pause` set `playing` and take the supplied time or keep
the previous one (`time ?? playbackState.time`); `seek` stores the supplied
time verbatim; any other action string changes nothing and acknowledges
`ok`. -/
def stepHostAction (s : ServerState) (roomId : String) (userId : Nat)
    (action : String) (time : Option Int) :
    ServerState × Option CbResult × List Emit :=
  match Rooms.get s.rooms roomId with
  | none => (s, some (CbResult.err "room_not_found"), [])
  | some room =>
    if room.hostId ≠ some userId then
      (s, some (CbResult.err "not_host"), [])
    else if action = "play" then
      let t := match time with | some v => some v | none => room.playbackState.time
      let room2 := ({ room with playbackState := { playing := true, time := t } }).addLog
        s.nextId "video_play" ("Host played at " ++ formatTime t) |>.1
      ({ s with rooms := Rooms.set s.rooms roomId room2, nextId := s.nextId + 1 },
       some CbResult.ok, [Emit.toRoom roomId "host:play"])
    else if action = "pause" then
      let t := match time with | some v => some v | none => room.playbackState.time
      let room2 := ({ room with playbackState := { playing := false, time := t } }).addLog
        s.nextId "video_pause" ("Host paused at " ++ formatTime t) |>.1
      ({ s with rooms := Rooms.set s.rooms roomId room2, nextId := s.nextId + 1 },
       some CbResult.ok, [Emit.toRoom roomId "host:pause"])
    else if action = "seek" then
      let room2 := ({ room with playbackState :=
        { playing := room.playbackState.playing, time := time } }).addLog
        s.nextId "video_seek" ("Host seeked to " ++ formatTime time) |>.1
      ({ s with rooms := Rooms.set s.rooms roomId room2, nextId := s.nextId + 1 },
       some CbResult.ok, [Emit.toRoom roomId "host:seek"])
    else
      (s, some CbResult.ok, [])

/-- The `host:take` handler: `room_not_found` / `user_not_found` guards
with no mutation, else unconditional `setHost(userId)`, a `host_changed`
log naming the previous host (name, else raw id, else "none"), and the
broadcasts. -/
def stepTakeHost (s : ServerState) (roomId : String) (userId : Nat) :
    ServerState × Option CbResult × List Emit :=
  match Rooms.get s.rooms roomId with
  | none => (s, some (CbResult.err "room_not_found"), [])
  | some room =>
    match room.getUser userId with
    | none => (s, some (CbResult.err "user_not_found"), [])
    | some user =>
      let previousHostId := room.hostId
      let room1 := room.setHost userId
      let prevName :=
        match previousHostId with
        | none => "none"
        | some pid =>
          match room1.getUser pid with
          | some pu => if pu.name = "" then toString pid else pu.name
          | none => toString pid
      let room2 := (room1.addLog s.nextId "host_changed"
        (user.name ++ " took host control (previous host: " ++ prevName ++ ")")).1
      ({ s with rooms := Rooms.set s.rooms roomId room2, nextId := s.nextId + 1 },
       some CbResult.ok,
       [Emit.toRoom roomId "host:changed", Emit.toRoom roomId "room:user_list"])

/-- The per-room body of the `disconnecting` handler's `forEach`: skip a
missing room or an unknown socket, else remove the member, log `user_left`,
broadcast, and, when the removed member was the host, promote `anyUser()`
(logging `host_assigned` and broadcasting) or clear the host when nobody
remains. The accumulator threads the directory, the fresh counter and the
emissions. -/
def disconnectRoom (socketId : Nat)
    (acc : List (String × Room) × Nat × List Emit) (roomId : String) :
    List (String × Room) × Nat × List Emit :=
  match Rooms.get acc.1 roomId with
  | none => acc
  | some room =>
    match room.getUserBySocket socketId with
    | none => acc
    | some user =>
      let roomA := ((room.removeUser user.id).addLog acc.2.1 "user_left"
        (user.name ++ " left")).1
      let emitsA := acc.2.2 ++
        [Emit.toRoom roomId "room:user_left", Emit.toRoom roomId "room:user_list"]
      let fin : Room × Nat × List Emit :=
        if roomA.hostId = some user.id then
          match roomA.anyUser with
          | some next =>
            ((roomA.setHost next.id).addLog (acc.2.1 + 1) "host_assigned"
              (next.name ++ " became host after disconnect") |>.1,
             acc.2.1 + 2,
             emitsA ++ [Emit.toRoom roomId "host:changed",
                        Emit.toRoom roomId "room:user_list"])
          | none => ({ roomA with hostId := none }, acc.2.1 + 1, emitsA)
        else (roomA, acc.2.1 + 1, emitsA)
      (Rooms.set acc.1 roomId fin.1, fin.2.1, fin.2.2)

/-- The `disconnecting` handler: process every room the socket had joined,
in join order, then drop the socket's channel memberships. Fire-and-forget:
no callback. -/
def stepDisconnect (s : ServerState) (socketId : Nat) :
    ServerState × Option CbResult × List Emit :=
  let joined := (s.socketRooms.filter (fun p => p.1 == socketId)).map (fun p => p.2)
  let r := joined.foldl (disconnectRoom socketId) (s.rooms, s.nextId, [])
  ({ rooms := r.1,
     socketRooms := s.socketRooms.filter (fun p => p.1 != socketId),
     nextId := r.2.1 },
   none, r.2.2)

/-- The room notification of the `/upload` endpoint: when a room id was
supplied (truthy) and the room exists, replace `room.video` wholesale,
log `video_uploaded`, and broadcast; otherwise do nothing. -/
def stepUpload (s : ServerState) (roomId filename : String) :
    ServerState × Option CbResult × List Emit :=
  if roomId = "" then (s, none, [])
  else
    match Rooms.get s.rooms roomId with
    | none => (s, none, [])
    | some room =>
      let room2 := ({ room with video := some { filename := filename } }).addLog
        s.nextId "video_uploaded" (filename ++ " uploaded") |>.1
      ({ s with rooms := Rooms.set s.rooms roomId room2, nextId := s.nextId + 1 },
       none, [Emit.toRoom roomId "video:uploaded"])

/-- The coordinator's inbound events. -/
inductive Op where
  | join (roomId username : String) (socketId : Nat) (rnd : Fin 900)
  | chat (roomId : String) (userId : Nat) (text : String)
  | hostAction (roomId : String) (userId : Nat) (action : String) (time : Option Int)
  | takeHost (roomId : String) (userId : Nat)
  | disconnect (socketId : Nat)
  | upload (roomId filename : String)
deriving DecidableEq, Repr

/-- One coordinator step: state transition, callback result, emissions. -/
def step (s : ServerState) : Op → ServerState × Option CbResult × List Emit
  | .join roomId username socketId rnd => stepJoin s roomId username socketId rnd
  | .chat roomId userId text => stepChat s roomId userId text
  | .hostAction roomId userId action time => stepHostAction s roomId userId action time
  | .takeHost roomId userId => stepTakeHost s roomId userId
  | .disconnect socketId => stepDisconnect s socketId
  | .upload roomId filename => stepUpload s roomId filename

/-- The state component of a step. -/
def stepState (s : ServerState) (op : Op) : ServerState := (step s op).1

/-- Run a sequence of coordinator operations from the empty directory. -/
def run (ops : List Op) : ServerState := ops.foldl stepState ServerState.init

/-! ### Projection lemmas for the room mutators -/

@[simp] theorem addLog_fst_id (r : Room) (i : Nat) (ty tx : String) :
    ((r.addLog i ty tx).1).id = r.id := rfl

@[simp] theorem addLog_fst_users (r : Room) (i : Nat) (ty tx : String) :
    ((r.addLog i ty tx).1).users = r.users := rfl

@[simp] theorem addLog_fst_hostId (r : Room) (i : Nat) (ty tx : String) :
    ((r.addLog i ty tx).1).hostId = r.hostId := rfl

@[simp] theorem addLog_fst_playback (r : Room) (i : Nat) (ty tx : String) :
    ((r.addLog i ty tx).1).playbackState = r.playbackState := rfl

@[simp] theorem addLog_fst_video (r : Room) (i : Nat) (ty tx : String) :
    ((r.addLog i ty tx).1).video = r.video := rfl

@[simp] theorem addUser_snd (r : Room) (i sid : Nat) (un : String) (rnd : Fin 900) :
    (r.addUser i sid un rnd).2 =
      { id := i,
        name := if un = "" then "Guest-" ++ toString (100 + rnd.val) else un,
        socketId := sid } := rfl

@[simp] theorem addUser_fst_users (r : Room) (i sid : Nat) (un : String) (rnd : Fin 900) :
    ((r.addUser i sid un rnd).1).users = r.users ++ [(r.addUser i sid un rnd).2] := rfl

@[simp] theorem addUser_fst_hostId (r : Room) (i sid : Nat) (un : String) (rnd : Fin 900) :
    ((r.addUser i sid un rnd).1).hostId = r.hostId := rfl

@[simp] theorem addUser_fst_playback (r : Room) (i sid : Nat) (un : String) (rnd : Fin 900) :
    ((r.addUser i sid un rnd).1).playbackState = r.playbackState := rfl

@[simp] theorem addUser_fst_logs (r : Room) (i sid : Nat) (un : String) (rnd : Fin 900) :
    ((r.addUser i sid un rnd).1).logs = r.logs := rfl

@[simp] theorem setHost_users (r : Room) (uid : Nat) : (r.setHost uid).users = r.users := rfl

@[simp] theorem setHost_hostId (r : Room) (uid : Nat) :
    (r.setHost uid).hostId = some uid := rfl

@[simp] theorem setHost_playback (r : Room) (uid : Nat) :
    (r.setHost uid).playbackState = r.playbackState := rfl

@[simp] theorem setHost_logs (r : Room) (uid : Nat) : (r.setHost uid).logs = r.logs := rfl

@[simp] theorem changeUsername_users (r : Room) (uid : Nat) (nn : String) :
    (r.changeUsername uid nn).users =
      r.users.map (fun u => if u.id == uid then { u with name := nn } else u) := rfl

@[simp] theorem changeUsername_hostId (r : Room) (uid : Nat) (nn : String) :
    (r.changeUsername uid nn).hostId = r.hostId := rfl

@[simp] theorem changeUsername_playback (r : Room) (uid : Nat) (nn : String) :
    (r.changeUsername uid nn).playbackState = r.playbackState := rfl

@[simp] theorem removeUser_users (r : Room) (uid : Nat) :
    (r.removeUser uid).users = r.users.filter (fun u => u.id != uid) := rfl

@[simp] theorem removeUser_hostId (r : Room) (uid : Nat) :
    (r.removeUser uid).hostId = r.hostId := rfl

@[simp] theorem removeUser_playback (r : Room) (uid : Nat) :
    (r.removeUser uid).playbackState = r.playbackState := rfl

@[simp] theorem mkNew_users (id : String) : (Room.mkNew id).users = [] := rfl

@[simp] theorem mkNew_hostId (id : String) : (Room.mkNew id).hostId = none := rfl

@[simp] theorem mkNew_playback (id : String) :
    (Room.mkNew id).playbackState = { playing := false, time := some 0 } := rfl

@[simp] theorem mkNew_logs (id : String) : (Room.mkNew id).logs = [] := rfl

/-! ### Directory lemmas -/

theorem Rooms.get_set_self (rs : List (String × Room)) (k : String) (r : Room) :
    Rooms.get (Rooms.set rs k r) k = some r := by
  induction rs with
  | nil => simp [Rooms.set, Rooms.get]
  | cons p ps ih =>
    by_cases h : p.1 == k
    · simp [Rooms.set, h, Rooms.get]
    · simp only [Rooms.set, h, if_false, Bool.false_eq_true]
      simpa [Rooms.get, List.find?_cons, h] using ih

theorem Rooms.mem_set {rs : List (String × Room)} {k : String} {r : Room}
    {p : String × Room} (h : p ∈ Rooms.set rs k r) : p = (k, r) ∨ p ∈ rs := by
  induction rs with
  | nil => simpa [Rooms.set] using h
  | cons q qs ih =>
    by_cases hq : q.1 == k
    · simp only [Rooms.set, hq, if_true] at h
      rcases List.mem_cons.mp h with h | h
      · exact Or.inl h
      · exact Or.inr (List.mem_cons_of_mem _ h)
    · simp only [Rooms.set, hq, if_false, Bool.false_eq_true] at h
      rcases List.mem_cons.mp h with h | h
      · exact Or.inr (h ▸ List.mem_cons_self _ _)
      · rcases ih h with h | h
        · exact Or.inl h
        · exact Or.inr (List.mem_cons_of_mem _ h)

theorem Rooms.get_mem {rs : List (String × Room)} {id : String} {r : Room}
    (h : Rooms.get rs id = some r) : ∃ k, (k, r) ∈ rs := by
  unfold Rooms.get at h
  cases hf : rs.find? (fun p => p.1 == id) with
  | none => simp [hf] at h
  | some q =>
    obtain ⟨k, v⟩ := q
    have hm := List.mem_of_find?_eq_some hf
    rw [hf] at h
    have h2 : v = r := by simpa using h
    exact ⟨k, h2 ▸ hm⟩

/-! ### The host/membership invariant -/

/-- The member ids of a room, in insertion order. -/
def Room.ids (r : Room) : List Nat := r.users.map User.id

/-- Well-formedness of one room against the fresh-uuid counter: every
member id was produced by the counter, member ids are pairwise distinct,
and a non-empty host pointer references a present member. -/
def RoomInv (r : Room) (n : Nat) : Prop :=
  (∀ i ∈ r.ids, i < n) ∧ r.ids.Nodup ∧ ∀ h, r.hostId = some h → h ∈ r.ids

/-- Every room of the directory is well formed. -/
def StateInv (s : ServerState) : Prop := ∀ p ∈ s.rooms, RoomInv p.2 s.nextId

theorem RoomInv.mono {r : Room} {n m : Nat} (h : RoomInv r n) (hnm : n ≤ m) :
    RoomInv r m :=
  ⟨fun i hi => lt_of_lt_of_le (h.1 i hi) hnm, h.2.1, h.2.2⟩

@[simp] theorem ids_addLog (r : Room) (i : Nat) (ty tx : String) :
    (r.addLog i ty tx).1.ids = r.ids := rfl

@[simp] theorem ids_setHost (r : Room) (uid : Nat) : (r.setHost uid).ids = r.ids := rfl

@[simp] theorem ids_addUser (r : Room) (i sid : Nat) (un : String) (rnd : Fin 900) :
    (r.addUser i sid un rnd).1.ids = r.ids ++ [i] := by
  unfold Room.ids
  rw [addUser_fst_users, List.map_append, addUser_snd]
  rfl

@[simp] theorem ids_changeUsername (r : Room) (uid : Nat) (nn : String) :
    (r.changeUsername uid nn).ids = r.ids := by
  unfold Room.ids
  rw [changeUsername_users, List.map_map]
  refine List.map_congr_left ?_
  intro u _
  by_cases h : u.id = uid <;> simp [h]

theorem ids_removeUser_sublist (r : Room) (uid : Nat) :
    ((r.removeUser uid).ids).Sublist r.ids := by
  unfold Room.ids
  rw [removeUser_users]
  exact (List.filter_sublist _).map _

theorem RoomInv.addLog {r : Room} {n : Nat} (h : RoomInv r n) (i : Nat)
    (ty tx : String) : RoomInv (r.addLog i ty tx).1 n := by
  simpa [RoomInv] using h

theorem RoomInv.addUser {r : Room} {n : Nat} (h : RoomInv r n) (sid : Nat)
    (un : String) (rnd : Fin 900) : RoomInv (r.addUser n sid un rnd).1 (n + 1) := by
  obtain ⟨hlt, hnd, hhost⟩ := h
  refine ⟨?_, ?_, ?_⟩
  · intro i hi
    rw [ids_addUser] at hi
    rcases List.mem_append.mp hi with hi | hi
    · exact lt_trans (hlt i hi) (Nat.lt_succ_self n)
    · simp only [List.mem_singleton] at hi
      omega
  · rw [ids_addUser, List.nodup_append]
    refine ⟨hnd, List.nodup_singleton _, ?_⟩
    intro i hi hj
    simp only [List.mem_singleton] at hj
    have := hlt _ hi
    omega
  · intro k hk
    rw [addUser_fst_hostId] at hk
    rw [ids_addUser]
    exact List.mem_append_left _ (hhost k hk)

theorem RoomInv.setHost {r : Room} {n uid : Nat} (h : RoomInv r n)
    (hm : uid ∈ r.ids) : RoomInv (r.setHost uid) n := by
  obtain ⟨hlt, hnd, _⟩ := h
  refine ⟨by simpa using hlt, by simpa using hnd, ?_⟩
  intro k hk
  rw [setHost_hostId] at hk
  injection hk with hk
  subst hk
  simpa using hm

theorem RoomInv.changeUsername {r : Room} {n : Nat} (h : RoomInv r n) (uid : Nat)
    (nn : String) : RoomInv (r.changeUsername uid nn) n := by
  obtain ⟨hlt, hnd, hhost⟩ := h
  exact ⟨by simpa using hlt, by simpa using hnd,
    by simpa only [ids_changeUsername, changeUsername_hostId] using hhost⟩

theorem RoomInv.setPlayback {r : Room} {n : Nat} (h : RoomInv r n)
    (ps : PlaybackState) : RoomInv { r with playbackState := ps } n := h

theorem RoomInv.setVideo {r : Room} {n : Nat} (h : RoomInv r n)
    (v : Option VideoMeta) : RoomInv { r with video := v } n := h

theorem RoomInv.mkNew (id : String) (n : Nat) : RoomInv (Room.mkNew id) n := by
  refine ⟨?_, ?_, ?_⟩ <;> simp [Room.ids]

/-- Field characterization of `joinRoomUpdate`. -/
theorem joinRoomUpdate_spec (room : Room) (n sid : Nat) (un : String) (rnd : Fin 900) :
    (joinRoomUpdate room n sid un rnd).1.users
        = room.users ++ [(room.addUser n sid un rnd).2] ∧
    (joinRoomUpdate room n sid un rnd).1.hostId
        = (match room.hostId with | none => some n | some h => some h) ∧
    (joinRoomUpdate room n sid un rnd).1.playbackState = room.playbackState ∧
    (joinRoomUpdate room n sid un rnd).2.1 = (room.addUser n sid un rnd).2 ∧
    n < (joinRoomUpdate room n sid un rnd).2.2 := by
  unfold joinRoomUpdate
  cases hh : room.hostId <;>
    exact ⟨by simp [hh], by simp [hh], by simp [hh], by simp [hh],
           by simp [hh]; try omega⟩

theorem joinRoomUpdate_roomInv {room : Room} {n : Nat} (h : RoomInv room n)
    (sid : Nat) (un : String) (rnd : Fin 900) :
    RoomInv (joinRoomUpdate room n sid un rnd).1
      (joinRoomUpdate room n sid un rnd).2.2 := by
  obtain ⟨hu, hhost, _, _, hlt⟩ := joinRoomUpdate_spec room n sid un rnd
  obtain ⟨h1, h2, h3⟩ := h
  have hids : (joinRoomUpdate room n sid un rnd).1.ids = room.ids ++ [n] := by
    unfold Room.ids
    rw [hu, List.map_append, addUser_snd]
    rfl
  refine ⟨?_, ?_, ?_⟩
  · intro i hi
    rw [hids] at hi
    rcases List.mem_append.mp hi with hi | hi
    · exact lt_trans (h1 i hi) hlt
    · simp only [List.mem_singleton] at hi
      omega
  · rw [hids, List.nodup_append]
    refine ⟨h2, List.nodup_singleton _, ?_⟩
    intro i hi hj
    simp only [List.mem_singleton] at hj
    have := h1 _ hi
    omega
  · intro k hk
    rw [hhost] at hk
    rw [hids]
    cases hr : room.hostId with
    | none =>
      rw [hr] at hk
      injection hk with hk
      subst hk
      exact List.mem_append_right _ (List.mem_singleton_self _)
    | some h0 =>
      rw [hr] at hk
      injection hk with hk
      subst hk
      exact List.mem_append_left _ (h3 h0 hr)

@[simp] theorem mkNew_id (id : String) : (Room.mkNew id).id = id := rfl

theorem getUser_mem {r : Room} {uid : Nat} {u : User} (h : r.getUser uid = some u) :
    u ∈ r.users ∧ u.id = uid := by
  unfold Room.getUser at h
  have hm := List.mem_of_find?_eq_some h
  have hp := List.find?_some h
  exact ⟨hm, by simpa using hp⟩

theorem getUserBySocket_mem {r : Room} {sid : Nat} {u : User}
    (h : r.getUserBySocket sid = some u) : u ∈ r.users ∧ u.socketId = sid := by
  unfold Room.getUserBySocket at h
  have hm := List.mem_of_find?_eq_some h
  have hp := List.find?_some h
  exact ⟨hm, by simpa using hp⟩

theorem anyUser_mem {r : Room} {u : User} (h : r.anyUser = some u) : u ∈ r.users := by
  unfold Room.anyUser at h
  cases hl : r.users with
  | nil => rw [hl] at h; simp at h
  | cons a t =>
    rw [hl] at h
    simp only [List.head?] at h
    injection h with h
    subst h
    exact List.mem_cons_self _ _

theorem mem_removeUser_ids {r : Room} {h0 uid : Nat} (hm : h0 ∈ r.ids)
    (hne : h0 ≠ uid) : h0 ∈ (r.removeUser uid).ids := by
  unfold Room.ids at hm ⊢
  rw [removeUser_users]
  obtain ⟨w, hw, hwid⟩ := List.mem_map.mp hm
  subst hwid
  exact List.mem_map.mpr ⟨w, List.mem_filter.mpr ⟨hw, by simpa [bne_iff_ne] using hne⟩, rfl⟩

theorem removeUser_base {r : Room} {n : Nat} (h : RoomInv r n) (uid : Nat) :
    (∀ i ∈ (r.removeUser uid).ids, i < n) ∧ ((r.removeUser uid).ids).Nodup :=
  ⟨fun i hi => h.1 i ((ids_removeUser_sublist r uid).subset hi),
   h.2.1.sublist (ids_removeUser_sublist r uid)⟩

theorem memberRoomInv {s : ServerState} (h : StateInv s) {roomId : String}
    {room : Room} (hg : Rooms.get s.rooms roomId = some room) :
    RoomInv room s.nextId := by
  obtain ⟨k, hk⟩ := Rooms.get_mem hg
  exact h _ hk

/-! ### Invariant preservation through every handler -/

theorem stepJoin_inv {s : ServerState} (h : StateInv s) (roomId username : String)
    (socketId : Nat) (rnd : Fin 900) :
    StateInv (stepJoin s roomId username socketId rnd).1 := by
  unfold StateInv at h ⊢
  unfold stepJoin
  cases hg : Rooms.get s.rooms roomId with
  | some r =>
    simp only [hg]
    intro p hp
    have hrInv : RoomInv r s.nextId := memberRoomInv h hg
    have hj := joinRoomUpdate_roomInv hrInv socketId username rnd
    have hlt := (joinRoomUpdate_spec r s.nextId socketId username rnd).2.2.2.2
    rcases Rooms.mem_set hp with he | he
    · rw [he]
      exact hj
    · exact (h _ he).mono (le_of_lt hlt)
  | none =>
    by_cases hid : roomId = ""
    · simp only [hg, Rooms.create, hid, if_true, mkNew_id]
      intro p hp
      rcases Rooms.mem_set hp with he | he
      · rw [he]
        exact joinRoomUpdate_roomInv (RoomInv.mkNew _ _) socketId username rnd
      · rcases Rooms.mem_set he with he2 | he2
        · rw [he2]
          exact RoomInv.mkNew _ _
        · have hlt := (joinRoomUpdate_spec
            (Room.mkNew ("uuid-" ++ toString s.nextId)) (s.nextId + 1)
            socketId username rnd).2.2.2.2
          exact (h _ he2).mono (by omega)
    · simp only [hg, Rooms.create, if_neg hid, mkNew_id]
      intro p hp
      rcases Rooms.mem_set hp with he | he
      · rw [he]
        exact joinRoomUpdate_roomInv (RoomInv.mkNew _ _) socketId username rnd
      · rcases Rooms.mem_set he with he2 | he2
        · rw [he2]
          exact RoomInv.mkNew _ _
        · have hlt := (joinRoomUpdate_spec (Room.mkNew roomId) s.nextId
            socketId username rnd).2.2.2.2
          exact (h _ he2).mono (by omega)

theorem stepChat_inv {s : ServerState} (h : StateInv s) (roomId : String)
    (userId : Nat) (text : String) : StateInv (stepChat s roomId userId text).1 := by
  unfold StateInv at h ⊢
  unfold stepChat
  cases hg : Rooms.get s.rooms roomId with
  | none => exact h
  | some room =>
    simp only [hg]
    cases hu : room.getUser userId with
    | none => exact h
    | some user =>
      simp only [hu]
      have hrInv : RoomInv room s.nextId := memberRoomInv h hg
      by_cases hcmd : jsStartsWith (jsTrim text) "/name" = true
      · rw [if_pos hcmd]
        by_cases hok : jsTrim (jsDrop (jsTrim text) 5) ≠ "" ∧
          (jsTrim (jsDrop (jsTrim text) 5)).length ≤ 32
        · rw [if_pos hok]
          intro p hp
          rcases Rooms.mem_set hp with he | he
          · rw [he]
            exact (((hrInv.changeUsername userId _).addLog s.nextId _ _).mono (Nat.le_succ _))
          · exact (h _ he).mono (Nat.le_succ _)
        · rw [if_neg hok]
          exact h
      · rw [if_neg hcmd]
        intro p hp
        rcases Rooms.mem_set hp with he | he
        · rw [he]
          exact ((hrInv.addLog (s.nextId + 1) _ _).mono (Nat.le_add_right _ 2))
        · exact (h _ he).mono (Nat.le_add_right _ 2)

theorem stepHostAction_inv {s : ServerState} (h : StateInv s) (roomId : String)
    (userId : Nat) (action : String) (time : Option Int) :
    StateInv (stepHostAction s roomId userId action time).1 := by
  unfold StateInv at h ⊢
  unfold stepHostAction
  cases hg : Rooms.get s.rooms roomId with
  | none => exact h
  | some room =>
    simp only [hg]
    have hrInv : RoomInv room s.nextId := memberRoomInv h hg
    by_cases hhost : room.hostId ≠ some userId
    · rw [if_pos hhost]
      exact h
    · rw [if_neg hhost]
      have main : ∀ (ps : PlaybackState) (i : Nat) (ty tx : String),
          ∀ p ∈ Rooms.set s.rooms roomId
              (({ room with playbackState := ps }).addLog i ty tx).1,
            RoomInv p.2 (s.nextId + 1) := by
        intro ps i ty tx p hp
        rcases Rooms.mem_set hp with he | he
        · rw [he]
          exact ((hrInv.setPlayback ps).addLog i ty tx).mono (Nat.le_succ _)
        · exact (h _ he).mono (Nat.le_succ _)
      by_cases hplay : action = "play"
      · rw [if_pos hplay]
        exact main _ _ _ _
      · rw [if_neg hplay]
        by_cases hpause : action = "pause"
        · rw [if_pos hpause]
          exact main _ _ _ _
        · rw [if_neg hpause]
          by_cases hseek : action = "seek"
          · rw [if_pos hseek]
            exact main _ _ _ _
          · rw [if_neg hseek]
            exact h

theorem stepTakeHost_inv {s : ServerState} (h : StateInv s) (roomId : String)
    (userId : Nat) : StateInv (stepTakeHost s roomId userId).1 := by
  unfold StateInv at h ⊢
  unfold stepTakeHost
  cases hg : Rooms.get s.rooms roomId with
  | none => exact h
  | some room =>
    simp only [hg]
    cases hu : room.getUser userId with
    | none => exact h
    | some user =>
      simp only [hu]
      have hrInv : RoomInv room s.nextId := memberRoomInv h hg
      obtain ⟨hmem, hiduid⟩ := getUser_mem hu
      have hmid : userId ∈ room.ids := by
        unfold Room.ids
        exact List.mem_map.mpr ⟨user, hmem, hiduid⟩
      intro p hp
      rcases Rooms.mem_set hp with he | he
      · rw [he]
        exact ((hrInv.setHost hmid).addLog s.nextId _ _).mono (Nat.le_succ _)
      · exact (h _ he).mono (Nat.le_succ _)

theorem stepUpload_inv {s : ServerState} (h : StateInv s) (roomId filename : String) :
    StateInv (stepUpload s roomId filename).1 := by
  unfold StateInv at h ⊢
  unfold stepUpload
  by_cases hid : roomId = ""
  · rw [if_pos hid]
    exact h
  · rw [if_neg hid]
    cases hg : Rooms.get s.rooms roomId with
    | none => exact h
    | some room =>
      simp only [hg]
      have hrInv : RoomInv room s.nextId := memberRoomInv h hg
      intro p hp
      rcases Rooms.mem_set hp with he | he
      · rw [he]
        exact ((hrInv.setVideo _).addLog s.nextId _ _).mono (Nat.le_succ _)
      · exact (h _ he).mono (Nat.le_succ _)

theorem disconnectRoom_inv {acc : List (String × Room) × Nat × List Emit}
    (h : ∀ p ∈ acc.1, RoomInv p.2 acc.2.1) (sid : Nat) (roomId : String) :
    (∀ p ∈ (disconnectRoom sid acc roomId).1,
        RoomInv p.2 (disconnectRoom sid acc roomId).2.1) ∧
      acc.2.1 ≤ (disconnectRoom sid acc roomId).2.1 := by
  unfold disconnectRoom
  cases hg : Rooms.get acc.1 roomId with
  | none => exact ⟨h, le_refl _⟩
  | some room =>
    simp only [hg]
    cases hu : room.getUserBySocket sid with
    | none => exact ⟨h, le_refl _⟩
    | some user =>
      simp only [hu]
      have hrInv : RoomInv room acc.2.1 := by
        obtain ⟨k, hk⟩ := Rooms.get_mem hg
        exact h _ hk
      obtain ⟨hbel, hnd⟩ := removeUser_base hrInv user.id
      by_cases hhost :
          ((room.removeUser user.id).addLog acc.2.1 "user_left"
            (user.name ++ " left")).1.hostId = some user.id
      · rw [if_pos hhost]
        cases hany :
            ((room.removeUser user.id).addLog acc.2.1 "user_left"
              (user.name ++ " left")).1.anyUser with
        | some next =>
          simp only [hany]
          refine ⟨?_, Nat.le_add_right _ 2⟩
          intro p hp
          rcases Rooms.mem_set hp with he | he
          · rw [he]
            have hnext : next ∈ (room.removeUser user.id).users := anyUser_mem hany
            have hnid : next.id ∈ (room.removeUser user.id).ids := by
              unfold Room.ids
              exact List.mem_map.mpr ⟨next, hnext, rfl⟩
            refine ⟨?_, hnd, ?_⟩
            · intro i hi
              exact Nat.lt_of_lt_of_le (hbel i hi) (Nat.le_add_right _ 2)
            · intro k hk
              have hk2 : some next.id = some k := hk
              injection hk2 with hk2
              subst hk2
              exact hnid
          · exact (h _ he).mono (Nat.le_add_right _ 2)
        | none =>
          simp only [hany]
          refine ⟨?_, Nat.le_succ _⟩
          intro p hp
          rcases Rooms.mem_set hp with he | he
          · rw [he]
            refine ⟨?_, hnd, ?_⟩
            · intro i hi
              exact Nat.lt_succ_of_lt (hbel i hi)
            · intro k hk
              exact Option.noConfusion hk
          · exact (h _ he).mono (Nat.le_succ _)
      · rw [if_neg hhost]
        refine ⟨?_, Nat.le_succ _⟩
        intro p hp
        rcases Rooms.mem_set hp with he | he
        · rw [he]
          refine ⟨?_, hnd, ?_⟩
          · intro i hi
            exact Nat.lt_succ_of_lt (hbel i hi)
          · intro k hk
            have hk2 : room.hostId = some k := hk
            have hkr : k ∈ room.ids := hrInv.2.2 k hk2
            have hkne : k ≠ user.id := by
              intro hko
              exact hhost (hko ▸ hk)
            exact mem_removeUser_ids hkr hkne
        · exact (h _ he).mono (Nat.le_succ _)

theorem foldl_disconnect_inv (sid : Nat) (l : List String) :
    ∀ (acc : List (String × Room) × Nat × List Emit),
      (∀ p ∈ acc.1, RoomInv p.2 acc.2.1) →
      (∀ p ∈ (l.foldl (disconnectRoom sid) acc).1,
          RoomInv p.2 (l.foldl (disconnectRoom sid) acc).2.1) ∧
        acc.2.1 ≤ (l.foldl (disconnectRoom sid) acc).2.1 := by
  induction l with
  | nil => exact fun acc hacc => ⟨hacc, le_refl _⟩
  | cons rid rest ih =>
    intro acc hacc
    obtain ⟨h1, h2⟩ := disconnectRoom_inv hacc sid rid
    obtain ⟨h3, h4⟩ := ih (disconnectRoom sid acc rid) h1
    exact ⟨h3, le_trans h2 h4⟩

theorem stepDisconnect_inv {s : ServerState} (h : StateInv s) (socketId : Nat) :
    StateInv (stepDisconnect s socketId).1 := by
  unfold StateInv at h ⊢
  unfold stepDisconnect
  exact (foldl_disconnect_inv socketId _ (s.rooms, s.nextId, []) h).1

theorem stepState_inv {s : ServerState} (h : StateInv s) (op : Op) :
    StateInv (stepState s op) := by
  cases op with
  | join roomId username socketId rnd => exact stepJoin_inv h roomId username socketId rnd
  | chat roomId userId text => exact stepChat_inv h roomId userId text
  | hostAction roomId userId action time =>
    exact stepHostAction_inv h roomId userId action time
  | takeHost roomId userId => exact stepTakeHost_inv h roomId userId
  | disconnect socketId => exact stepDisconnect_inv h socketId
  | upload roomId filename => exact stepUpload_inv h roomId filename

theorem init_inv : StateInv ServerState.init := by
  intro p hp
  simp [ServerState.init] at hp

theorem run_inv (ops : List Op) : StateInv (run ops) := by
  unfold run
  have key : ∀ (l : List Op) (s : ServerState), StateInv s →
      StateInv (l.foldl stepState s) := by
    intro l
    induction l with
    | nil => exact fun s hs => hs
    | cons op rest ih => exact fun s hs => ih _ (stepState_inv hs op)
  exact key ops _ init_inv

/-- Decidable form of the host invariant over a whole server state: every
room's host pointer is empty or held by exactly one present member. -/
def ServerState.hostInvB (s : ServerState) : Bool :=
  s.rooms.all fun p =>
    match p.2.hostId with
    | none => true
    | some h => (p.2.users.map User.id).count h == 1

theorem getLast_push_bound (l : List LogEntry) (x : LogEntry) :
    (if (l ++ [x]).length > 500 then (l ++ [x]).tail else l ++ [x]).getLast?
      = some x := by
  split
  · rename_i hlen
    cases l with
    | nil => simp at hlen
    | cons a t =>
      simp only [List.cons_append, List.tail_cons]
      exact List.getLast?_concat _
  · exact List.getLast?_concat _

/-- The entry just appended by `addLog` is the last log of the room. -/
theorem addLog_getLast (r : Room) (i : Nat) (ty tx : String) :
    ((r.addLog i ty tx).1.logs).getLast?
      = some { id := i, type := if ty = "" then "info" else ty, text := tx } :=
  getLast_push_bound r.logs _

/-! ### Concrete states shared by the witnesses -/

/-- A one-member room whose member (id 0, socket 1) is host. -/
def wRoom : Room :=
  { id := "r", users := [{ id := 0, name := "A", socketId := 1 }], hostId := some 0,
    video := none, logs := [], playbackState := { playing := false, time := some 0 } }

/-- A server state holding `wRoom` under key "r". -/
def wState : ServerState :=
  { rooms := [("r", wRoom)], socketRooms := [(1, "r")], nextId := 5 }

/-! ### Claims -/

/-- C1: starting from the empty room directory, after any sequence of
coordinator operations (join, chat, hostAction, takeHost, disconnect,
upload notification), every room's `hostId` is either empty or equal to
the id of exactly one currently-present member of that room — never a
dangling reference — and, being a single pointer, at most one member is
host at a time. -/
theorem C1_host_pointer_invariant (ops : List Op) : (run ops).hostInvB = true := by
  have hs := run_inv ops
  unfold ServerState.hostInvB
  rw [List.all_eq_true]
  intro p hp
  obtain ⟨h1, h2, h3⟩ := hs p hp
  cases hh : p.2.hostId with
  | none => rfl
  | some h0 =>
    have hm : h0 ∈ p.2.ids := h3 h0 hh
    have hc : (p.2.users.map User.id).count h0 = 1 := List.count_eq_one_of_mem h2 hm
    simp [hc]

/-- C2: `hostAction` on an existing room by a caller who is not the current
host fails with `not_host` and leaves the whole server state — in
particular the room's playback state and activity log — unchanged, with no
emission. -/
theorem C2_non_host_action_no_mutation (s : ServerState) (roomId : String)
    (userId : Nat) (action : String) (time : Option Int) (room : Room)
    (hget : Rooms.get s.rooms roomId = some room)
    (hhost : room.hostId ≠ some userId) :
    stepHostAction s roomId userId action time
      = (s, some (CbResult.err "not_host"), []) := by
  unfold stepHostAction
  simp only [hget]
  rw [if_pos hhost]

/-- Witness for C2: socket 7 (not a member, certainly not host) tries to
play; the state is untouched and `not_host` is returned. -/
theorem C2_witness :
    stepHostAction wState "r" 7 "play" (some 3)
      = (wState, some (CbResult.err "not_host"), []) :=
  C2_non_host_action_no_mutation wState "r" 7 "play" (some 3) wRoom rfl (by decide)

/-- C4: `takeHost` fails with `room_not_found` on a missing room and with
`user_not_found` on an absent member, in both cases without any mutation or
emission; otherwise it always succeeds, sets the room's host to the caller
regardless of the previous host, and appends a `host_changed` log entry. -/
theorem C4_takeHost_spec (s : ServerState) (roomId : String) (userId : Nat) :
    (Rooms.get s.rooms roomId = none →
      stepTakeHost s roomId userId = (s, some (CbResult.err "room_not_found"), [])) ∧
    (∀ room, Rooms.get s.rooms roomId = some room → room.getUser userId = none →
      stepTakeHost s roomId userId = (s, some (CbResult.err "user_not_found"), [])) ∧
    (∀ room user, Rooms.get s.rooms roomId = some room →
      room.getUser userId = some user →
      ∃ final, Rooms.get (stepTakeHost s roomId userId).1.rooms roomId = some final ∧
        final.hostId = some userId ∧
        (final.logs.getLast?).map LogEntry.type = some "host_changed" ∧
        (stepTakeHost s roomId userId).2.1 = some CbResult.ok) := by
  refine ⟨?_, ?_, ?_⟩
  · intro hg
    unfold stepTakeHost
    simp only [hg]
  · intro room hg hu
    unfold stepTakeHost
    simp only [hg, hu]
  · intro room user hg hu
    unfold stepTakeHost
    simp only [hg, hu]
    refine ⟨_, Rooms.get_set_self _ _ _, rfl, ?_, trivial⟩
    rw [addLog_getLast]
    simp

/-- Witness for C4: member 0 of `wRoom` takes host in `wState`. -/
theorem C4_witness :
    ∃ final, Rooms.get (stepTakeHost wState "r" 0).1.rooms "r" = some final ∧
      final.hostId = some 0 ∧
      (final.logs.getLast?).map LogEntry.type = some "host_changed" ∧
      (stepTakeHost wState "r" 0).2.1 = some CbResult.ok :=
  (C4_takeHost_spec wState "r" 0).2.2 wRoom { id := 0, name := "A", socketId := 1 }
    rfl rfl

/-- C10: a chat naming an unknown room, or an unknown member of an existing
room, is a complete no-op: no state change, no emission, and the
acknowledgement callback is never invoked (no structured error either). -/
theorem C10_chat_unknown_silent (s : ServerState) (roomId : String) (userId : Nat)
    (text : String) :
    (Rooms.get s.rooms roomId = none →
      stepChat s roomId userId text = (s, none, [])) ∧
    (∀ room, Rooms.get s.rooms roomId = some room → room.getUser userId = none →
      stepChat s roomId userId text = (s, none, [])) := by
  constructor
  · intro hg
    unfold stepChat
    simp only [hg]
  · intro room hg hu
    unfold stepChat
    simp only [hg, hu]

/-- Witness for C10: chatting into the unknown room "z". -/
theorem C10_witness : stepChat wState "z" 0 "hi" = (wState, none, []) :=
  (C10_chat_unknown_silent wState "z" 0 "hi").1 rfl

/-- Renaming a member updates exactly the found record's name. -/
theorem find_rename (l : List User) (uid : Nat) (nn : String) (u : User)
    (h : l.find? (fun w => w.id == uid) = some u) :
    (l.map (fun w => if w.id == uid then { w with name := nn } else w)).find?
        (fun w => w.id == uid) = some { u with name := nn } := by
  induction l with
  | nil => simp at h
  | cons a t ih =>
    by_cases ha : a.id == uid
    · simp only [List.find?_cons, ha] at h
      simp only [List.map_cons, if_pos ha, List.find?_cons]
      have hpred : (({ a with name := nn } : User).id == uid) = true := ha
      simp only [hpred]
      simp only [Option.some.injEq] at h
      rw [h]
    · have haf : (a.id == uid) = false := by simpa using ha
      simp only [List.find?_cons, haf] at h
      simp only [List.map_cons, if_neg ha, List.find?_cons]
      have hpred : (({ a with name := nn } : User).id == uid) = false := haf
      simp only [hpred]
      exact ih h

theorem getUser_changeUsername {r : Room} {uid : Nat} {u : User} (nn : String)
    (h : r.getUser uid = some u) :
    (r.changeUsername uid nn).getUser uid = some { u with name := nn } := by
  unfold Room.getUser at h ⊢
  rw [changeUsername_users]
  exact find_rename r.users uid nn u h

/-- C3: the per-room disconnect processing, when the removed member was the
room's host: if at least one member remains after removal, exactly one
remaining member — the first in insertion order — becomes the new host and
a `host_assigned` log entry is appended; if no members remain, the room's
host pointer becomes empty. -/
theorem C3_host_reassignment_on_disconnect
    (rooms : List (String × Room)) (nid : Nat) (es : List Emit) (sid : Nat)
    (roomId : String) (room : Room) (user : User)
    (hget : Rooms.get rooms roomId = some room)
    (huser : room.getUserBySocket sid = some user)
    (hhost : room.hostId = some user.id) :
    ∃ final,
      Rooms.get (disconnectRoom sid (rooms, nid, es) roomId).1 roomId = some final ∧
      ((room.removeUser user.id).users = [] → final.hostId = none) ∧
      (∀ v vs, (room.removeUser user.id).users = v :: vs →
        final.hostId = some v.id ∧ v ∈ final.users ∧
        (final.logs.getLast?).map LogEntry.type = some "host_assigned") := by
  unfold disconnectRoom
  simp only [hget, huser, addLog_fst_hostId, removeUser_hostId]
  rw [if_pos hhost]
  cases hany : ((room.removeUser user.id).addLog nid "user_left"
      (user.name ++ " left")).1.anyUser with
  | some next =>
    simp only [hany]
    refine ⟨_, Rooms.get_set_self _ _ _, ?_, ?_⟩
    · intro hempty
      exfalso
      have h2 : (room.removeUser user.id).users.head? = some next := hany
      rw [hempty] at h2
      simp at h2
    · intro v vs hcons
      have h2 : (room.removeUser user.id).users.head? = some next := hany
      rw [hcons] at h2
      simp only [List.head?] at h2
      injection h2 with h2
      subst h2
      refine ⟨rfl, ?_, ?_⟩
      · exact hcons ▸ List.mem_cons_self v vs
      · rw [addLog_getLast]
        simp
  | none =>
    simp only [hany]
    refine ⟨_, Rooms.get_set_self _ _ _, fun _ => rfl, ?_⟩
    intro v vs hcons
    exfalso
    have h2 : (room.removeUser user.id).users.head? = none := hany
    rw [hcons] at h2
    simp at h2

/-- A two-member room whose first member (id 0, socket 1) is host. -/
def wRoom2 : Room :=
  { id := "r",
    users := [{ id := 0, name := "A", socketId := 1 },
              { id := 2, name := "B", socketId := 3 }],
    hostId := some 0, video := none, logs := [],
    playbackState := { playing := false, time := some 0 } }

/-- Witness for C3: the host's socket disconnects while B remains. -/
theorem C3_witness :
    ∃ final,
      Rooms.get (disconnectRoom 1 ([("r", wRoom2)], 9, []) "r").1 "r" = some final ∧
      ((wRoom2.removeUser 0).users = [] → final.hostId = none) ∧
      (∀ v vs, (wRoom2.removeUser 0).users = v :: vs →
        final.hostId = some v.id ∧ v ∈ final.users ∧
        (final.logs.getLast?).map LogEntry.type = some "host_assigned") :=
  C3_host_reassignment_on_disconnect [("r", wRoom2)] 9 [] 1 "r" wRoom2
    { id := 0, name := "A", socketId := 1 } rfl rfl rfl

/-- A fixed random-oracle value for concrete runs. -/
def rnd0 : Fin 900 := ⟨0, by decide⟩

/-- Counterexample to C5 as stated: two joins to room "r" from the same
connection (socket 7) leave the room with two member records sharing that
connectionRef. -/
theorem C5_counterexample :
    (Rooms.get (run [Op.join "r" "A" 7 rnd0, Op.join "r" "B" 7 rnd0]).rooms "r").map
      (fun r => r.users.countP (fun u => u.socketId == 7)) = some 2 := by rfl

/-- C5 amended: the join handler never deduplicates by connection — a join
from a connection that already owns a member of the room adds a second,
independent member record with the same connectionRef, so a connection can
map to two or more members of one room. -/
theorem C5_amended_duplicate_connection (s : ServerState) (roomId username : String)
    (sid : Nat) (rnd : Fin 900) (room : Room)
    (hget : Rooms.get s.rooms roomId = some room)
    (hmem : 1 ≤ room.users.countP (fun u => u.socketId == sid)) :
    ∃ final, Rooms.get (stepJoin s roomId username sid rnd).1.rooms roomId
        = some final ∧
      2 ≤ final.users.countP (fun u => u.socketId == sid) := by
  unfold stepJoin
  simp only [hget]
  refine ⟨_, Rooms.get_set_self _ _ _, ?_⟩
  rw [(joinRoomUpdate_spec room s.nextId sid username rnd).1, List.countP_append]
  have hone : List.countP (fun u => u.socketId == sid)
      [(room.addUser s.nextId sid username rnd).2] = 1 := by
    simp [addUser_snd]
  omega

/-- Witness for the amended C5: socket 1 already owns member 0 of `wRoom`
and joins again. -/
theorem C5_amended_witness :
    ∃ final, Rooms.get (stepJoin wState "r" "again" 1 rnd0).1.rooms "r"
        = some final ∧
      2 ≤ final.users.countP (fun u => u.socketId == 1) :=
  C5_amended_duplicate_connection wState "r" "again" 1 rnd0 wRoom rfl (by decide)

/-- C7: a chat from a present member whose trimmed text starts with the
`/name` command: when the candidate (the remainder after the five command
characters, trimmed) has between 1 and 32 characters, the member is renamed
to it, a `name_changed` log entry with text `<old> changed name to <new>`
is appended, and the call succeeds; when the candidate is empty or longer
than 32 characters, the call fails with `invalid_name` and the entire
server state is unchanged, with no broadcast. -/
theorem C7_rename_validation (s : ServerState) (roomId : String) (userId : Nat)
    (text : String) (room : Room) (user : User)
    (hget : Rooms.get s.rooms roomId = some room)
    (huser : room.getUser userId = some user)
    (hcmd : jsStartsWith (jsTrim text) "/name" = true) :
    ((jsTrim (jsDrop (jsTrim text) 5) ≠ "" ∧
        (jsTrim (jsDrop (jsTrim text) 5)).length ≤ 32) →
      ∃ final, Rooms.get (stepChat s roomId userId text).1.rooms roomId
          = some final ∧
        final.getUser userId
          = some { user with name := jsTrim (jsDrop (jsTrim text) 5) } ∧
        final.logs.getLast?
          = some { id := s.nextId, type := "name_changed",
                   text := user.name ++ " changed name to "
                     ++ jsTrim (jsDrop (jsTrim text) 5) } ∧
        (stepChat s roomId userId text).2.1 = some CbResult.ok) ∧
    ((jsTrim (jsDrop (jsTrim text) 5) = "" ∨
        32 < (jsTrim (jsDrop (jsTrim text) 5)).length) →
      stepChat s roomId userId text = (s, some (CbResult.err "invalid_name"), [])) := by
  constructor
  · intro hok
    unfold stepChat
    simp only [hget, huser]
    rw [if_pos hcmd, if_pos hok]
    refine ⟨_, Rooms.get_set_self _ _ _, ?_, ?_, rfl⟩
    · exact getUser_changeUsername _ huser
    · rw [addLog_getLast]
      simp
  · intro hbad
    have hneg : ¬(jsTrim (jsDrop (jsTrim text) 5) ≠ "" ∧
        (jsTrim (jsDrop (jsTrim text) 5)).length ≤ 32) := by
      rcases hbad with hb | hb
      · exact fun hc => hc.1 hb
      · exact fun hc => absurd hc.2 (by omega)
    unfold stepChat
    simp only [hget, huser]
    rw [if_pos hcmd, if_neg hneg]

/-- Witness for C7: member 0 ("A") renames to "Bob". -/
theorem C7_witness :
    ∃ final, Rooms.get (stepChat wState "r" 0 "/name Bob").1.rooms "r" = some final ∧
      final.getUser 0 = some { id := 0, name := "Bob", socketId := 1 } ∧
      final.logs.getLast?
        = some { id := 5, type := "name_changed", text := "A changed name to Bob" } ∧
      (stepChat wState "r" 0 "/name Bob").2.1 = some CbResult.ok :=
  (C7_rename_validation wState "r" 0 "/name Bob" wRoom
      { id := 0, name := "A", socketId := 1 } rfl rfl (by decide)).1 (by decide)

/-- The log entry built by one `addLog` call from (fresh id, type, text). -/
def mkEntry (e : Nat × String × String) : LogEntry :=
  { id := e.1, type := if e.2.1 = "" then "info" else e.2.1, text := e.2.2 }

/-- Iterated `addLog`; each element supplies the fresh id, the type and the
text of one call. -/
def Room.addLogs (r : Room) (entries : List (Nat × String × String)) : Room :=
  entries.foldl (fun room e => (room.addLog e.1 e.2.1 e.2.2).1) r

/-- One `addLog` step, written as a drop of the pushed list. -/
theorem addLog_logs_eq (r : Room) (e : Nat × String × String)
    (h : r.logs.length ≤ 500) :
    (r.addLog e.1 e.2.1 e.2.2).1.logs
      = (r.logs ++ [mkEntry e]).drop (r.logs.length + 1 - 500) := by
  show (if (r.logs ++ [mkEntry e]).length > 500
        then (r.logs ++ [mkEntry e]).tail
        else r.logs ++ [mkEntry e])
      = (r.logs ++ [mkEntry e]).drop (r.logs.length + 1 - 500)
  by_cases hl : r.logs.length = 500
  · have hc : (r.logs ++ [mkEntry e]).length > 500 := by
      rw [List.length_append]
      simp only [List.length_cons, List.length_nil]
      omega
    rw [if_pos hc, hl]
    have h1 : 500 + 1 - 500 = 1 := by omega
    rw [h1, List.drop_one]
  · have hc : ¬((r.logs ++ [mkEntry e]).length > 500) := by
      rw [List.length_append]
      simp only [List.length_cons, List.length_nil]
      omega
    have h0 : r.logs.length + 1 - 500 = 0 := by omega
    rw [if_neg hc, h0, List.drop_zero]

/-- C8: for any room whose log is within capacity (in particular any
reachable room, which starts empty), any sequence of `addLog` calls leaves
exactly the most recent entries, in order: the resulting log is the pushed
sequence with the oldest entries dropped from the head, and its length
never exceeds 500. -/
theorem C8_log_capacity (r : Room) (entries : List (Nat × String × String))
    (h : r.logs.length ≤ 500) :
    (r.addLogs entries).logs
        = (r.logs ++ entries.map mkEntry).drop
            (r.logs.length + entries.length - 500) ∧
      (r.addLogs entries).logs.length ≤ 500 := by
  induction entries generalizing r with
  | nil =>
    refine ⟨?_, by simpa [Room.addLogs] using h⟩
    show r.logs = (r.logs ++ List.map mkEntry []).drop (r.logs.length + 0 - 500)
    have h0 : r.logs.length + 0 - 500 = 0 := by omega
    rw [h0, List.drop_zero, List.map_nil, List.append_nil]
  | cons e rest ih =>
    have hstep := addLog_logs_eq r e h
    have hlen1 : (r.addLog e.1 e.2.1 e.2.2).1.logs.length ≤ 500 := by
      rw [hstep, List.length_drop, List.length_append]
      simp only [List.length_cons, List.length_nil]
      omega
    obtain ⟨hr1, hr2⟩ := ih (r.addLog e.1 e.2.1 e.2.2).1 hlen1
    have hshape : (r.addLogs (e :: rest)).logs
        = ((r.addLog e.1 e.2.1 e.2.2).1.addLogs rest).logs := rfl
    constructor
    · rw [hshape, hr1, hstep]
      have hd1 : r.logs.length + 1 - 500
          ≤ (r.logs ++ [mkEntry e]).length := by
        rw [List.length_append]
        simp only [List.length_cons, List.length_nil]
        omega
      rw [← List.drop_append_of_le_length hd1, List.drop_drop,
          List.append_assoc, List.singleton_append, ← List.map_cons]
      refine congrFun (congrArg List.drop ?_) _
      simp only [List.length_drop, List.length_append, List.length_cons,
        List.length_nil]
      omega
    · rw [hshape]
      exact hr2

/-- Witness for C8 from the freshly constructed (empty-log) room. -/
theorem C8_witness :
    ((Room.mkNew "r").addLogs [(0, "chat", "hi")]).logs
        = (((Room.mkNew "r").logs ++ [(0, "chat", "hi")].map mkEntry).drop
            ((Room.mkNew "r").logs.length + [(0, "chat", "hi")].length - 500)) ∧
      ((Room.mkNew "r").addLogs [(0, "chat", "hi")]).logs.length ≤ 500 :=
  C8_log_capacity (Room.mkNew "r") [(0, "chat", "hi")] (by decide)

/-- The naming rule exactly as the claim states it: the member's name is
the caller-supplied name trimmed of surrounding whitespace when that
trimmed name is non-empty, and otherwise a generated `Guest-<3 digits>`
placeholder with a number between 100 and 999. -/
def nameClaimSpec (username name : String) : Prop :=
  if jsTrim username ≠ "" then name = jsTrim username
  else ∃ k : Nat, 100 ≤ k ∧ k ≤ 999 ∧ name = "Guest-" ++ toString k

/-- Counterexample to C9 as stated: joining with the name " A" (leading
whitespace, non-empty after trimming) produces the member name " A"
verbatim — the code never trims — which violates the claimed rule. -/
theorem C9_counterexample :
    ((Rooms.get (run [Op.join "r" " A" 1 rnd0]).rooms "r").map
        (fun r => r.users.map User.name) = some [" A"]) ∧
      ¬ nameClaimSpec " A" " A" := by
  constructor
  · rfl
  · unfold nameClaimSpec
    rw [if_pos (by decide)]
    decide

/-- C9 amended: the created member's name equals the caller-supplied name
exactly (no trimming) whenever that name is non-empty — even if it is all
whitespace — and only for the empty string is a `Guest-<k>` placeholder
generated, with `100 ≤ k ≤ 999`. -/
theorem C9_amended_join_name (s : ServerState) (roomId username : String)
    (socketId : Nat) (rnd : Fin 900) (user : User)
    (hcb : (stepJoin s roomId username socketId rnd).2.1
        = some (CbResult.okJoin user)) :
    (username ≠ "" → user.name = username) ∧
    (username = "" → user.name = "Guest-" ++ toString (100 + rnd.val) ∧
      100 ≤ 100 + rnd.val ∧ 100 + rnd.val ≤ 999) := by
  have hname : user.name
      = (if username = "" then "Guest-" ++ toString (100 + rnd.val) else username) := by
    unfold stepJoin at hcb
    cases hg : Rooms.get s.rooms roomId <;> simp only [hg] at hcb <;>
    · injection hcb with hcb
      injection hcb with hcb
      rw [← hcb, (joinRoomUpdate_spec _ _ socketId username rnd).2.2.2.1,
        addUser_snd]
  constructor
  · intro hne
    rw [hname, if_neg hne]
  · intro heq
    rw [hname, if_pos heq]
    have hb := rnd.isLt
    exact ⟨rfl, by omega, by omega⟩

/-- Witness for the amended C9: joining `wState` with the non-empty name
" A" yields exactly that name. -/
theorem C9_amended_witness :
    (" A" : String) ≠ "" ∧
      ({ id := 5, name := " A", socketId := 9 } : User).name = " A" :=
  ⟨by decide, (C9_amended_join_name wState "r" " A" 9 rnd0
      { id := 5, name := " A", socketId := 9 } rfl).1 (by decide)⟩

/-! ### Playback-position sign analysis -/

/-- All rooms of a directory have a non-negative (or undefined) position. -/
def PbRooms (rs : List (String × Room)) : Prop :=
  ∀ p ∈ rs, ∀ t : Int, p.2.playbackState.time = some t → 0 ≤ t

theorem PbRooms.set {rs : List (String × Room)} {k : String} {r : Room}
    (h : PbRooms rs) (hr : ∀ t : Int, r.playbackState.time = some t → 0 ≤ t) :
    PbRooms (Rooms.set rs k r) := by
  intro p hp
  rcases Rooms.mem_set hp with he | he
  · subst he
    exact hr
  · exact h _ he

theorem PbRooms.of_get {rs : List (String × Room)} {id : String} {r : Room}
    (h : PbRooms rs) (hg : Rooms.get rs id = some r) :
    ∀ t : Int, r.playbackState.time = some t → 0 ≤ t := by
  obtain ⟨k, hk⟩ := Rooms.get_mem hg
  exact h _ hk

theorem stepJoin_pb {s : ServerState} (h : PbRooms s.rooms)
    (roomId username : String) (socketId : Nat) (rnd : Fin 900) :
    PbRooms (stepJoin s roomId username socketId rnd).1.rooms := by
  unfold stepJoin
  cases hg : Rooms.get s.rooms roomId with
  | some r =>
    simp only [hg]
    refine PbRooms.set h ?_
    intro t ht
    rw [(joinRoomUpdate_spec r s.nextId socketId username rnd).2.2.1] at ht
    exact PbRooms.of_get h hg t ht
  | none =>
    by_cases hid : roomId = ""
    · simp only [hg, Rooms.create, hid, if_true, mkNew_id]
      refine PbRooms.set (PbRooms.set h ?_) ?_
      · intro t ht
        injection ht with ht
        omega
      · intro t ht
        rw [(joinRoomUpdate_spec _ _ socketId username rnd).2.2.1] at ht
        injection ht with ht
        omega
    · simp only [hg, Rooms.create, if_neg hid, mkNew_id]
      refine PbRooms.set (PbRooms.set h ?_) ?_
      · intro t ht
        injection ht with ht
        omega
      · intro t ht
        rw [(joinRoomUpdate_spec _ _ socketId username rnd).2.2.1] at ht
        injection ht with ht
        omega

theorem stepChat_pb {s : ServerState} (h : PbRooms s.rooms) (roomId : String)
    (userId : Nat) (text : String) :
    PbRooms (stepChat s roomId userId text).1.rooms := by
  unfold stepChat
  cases hg : Rooms.get s.rooms roomId with
  | none => exact h
  | some room =>
    simp only [hg]
    cases hu : room.getUser userId with
    | none => exact h
    | some user =>
      simp only [hu]
      have hroom := PbRooms.of_get h hg
      by_cases hcmd : jsStartsWith (jsTrim text) "/name" = true
      · rw [if_pos hcmd]
        by_cases hok : jsTrim (jsDrop (jsTrim text) 5) ≠ "" ∧
            (jsTrim (jsDrop (jsTrim text) 5)).length ≤ 32
        · rw [if_pos hok]
          exact PbRooms.set h (fun t ht => hroom t ht)
        · rw [if_neg hok]
          exact h
      · rw [if_neg hcmd]
        exact PbRooms.set h (fun t ht => hroom t ht)

theorem stepHostAction_pb {s : ServerState} (h : PbRooms s.rooms)
    (roomId : String) (userId : Nat) (action : String) (time : Option Int)
    (htime : ∀ v : Int, time = some v → 0 ≤ v) :
    PbRooms (stepHostAction s roomId userId action time).1.rooms := by
  unfold stepHostAction
  cases hg : Rooms.get s.rooms roomId with
  | none => exact h
  | some room =>
    simp only [hg]
    have hroom := PbRooms.of_get h hg
    by_cases hhost : room.hostId ≠ some userId
    · rw [if_pos hhost]
      exact h
    · rw [if_neg hhost]
      by_cases hplay : action = "play"
      · rw [if_pos hplay]
        refine PbRooms.set h ?_
        intro t ht
        cases time with
        | some v =>
          have ht2 : some v = some t := ht
          injection ht2 with ht2
          subst ht2
          exact htime v rfl
        | none => exact hroom t ht
      · rw [if_neg hplay]
        by_cases hpause : action = "pause"
        · rw [if_pos hpause]
          refine PbRooms.set h ?_
          intro t ht
          cases time with
          | some v =>
            have ht2 : some v = some t := ht
            injection ht2 with ht2
            subst ht2
            exact htime v rfl
          | none => exact hroom t ht
        · rw [if_neg hpause]
          by_cases hseek : action = "seek"
          · rw [if_pos hseek]
            refine PbRooms.set h ?_
            intro t ht
            exact htime t ht
          · rw [if_neg hseek]
            exact h

theorem stepTakeHost_pb {s : ServerState} (h : PbRooms s.rooms)
    (roomId : String) (userId : Nat) :
    PbRooms (stepTakeHost s roomId userId).1.rooms := by
  unfold stepTakeHost
  cases hg : Rooms.get s.rooms roomId with
  | none => exact h
  | some room =>
    simp only [hg]
    cases hu : room.getUser userId with
    | none => exact h
    | some user =>
      simp only [hu]
      exact PbRooms.set h (fun t ht => PbRooms.of_get h hg t ht)

theorem stepUpload_pb {s : ServerState} (h : PbRooms s.rooms)
    (roomId filename : String) :
    PbRooms (stepUpload s roomId filename).1.rooms := by
  unfold stepUpload
  by_cases hid : roomId = ""
  · rw [if_pos hid]
    exact h
  · rw [if_neg hid]
    cases hg : Rooms.get s.rooms roomId with
    | none => exact h
    | some room =>
      simp only [hg]
      exact PbRooms.set h (fun t ht => PbRooms.of_get h hg t ht)

theorem disconnectRoom_pb {acc : List (String × Room) × Nat × List Emit}
    (h : PbRooms acc.1) (sid : Nat) (roomId : String) :
    PbRooms (disconnectRoom sid acc roomId).1 := by
  unfold disconnectRoom
  cases hg : Rooms.get acc.1 roomId with
  | none => exact h
  | some room =>
    simp only [hg]
    cases hu : room.getUserBySocket sid with
    | none => exact h
    | some user =>
      simp only [hu]
      have hroom := PbRooms.of_get h hg
      by_cases hhost :
          ((room.removeUser user.id).addLog acc.2.1 "user_left"
            (user.name ++ " left")).1.hostId = some user.id
      · rw [if_pos hhost]
        cases hany : ((room.removeUser user.id).addLog acc.2.1 "user_left"
            (user.name ++ " left")).1.anyUser with
        | some next =>
          simp only [hany]
          exact PbRooms.set h (fun t ht => hroom t ht)
        | none =>
          simp only [hany]
          exact PbRooms.set h (fun t ht => hroom t ht)
      · rw [if_neg hhost]
        exact PbRooms.set h (fun t ht => hroom t ht)

theorem stepDisconnect_pb {s : ServerState} (h : PbRooms s.rooms)
    (socketId : Nat) : PbRooms (stepDisconnect s socketId).1.rooms := by
  unfold stepDisconnect
  have key : ∀ (l : List String) (acc : List (String × Room) × Nat × List Emit),
      PbRooms acc.1 → PbRooms (l.foldl (disconnectRoom socketId) acc).1 := by
    intro l
    induction l with
    | nil => exact fun acc hacc => hacc
    | cons rid rest ih =>
      exact fun acc hacc => ih _ (disconnectRoom_pb hacc socketId rid)
  exact key _ (s.rooms, s.nextId, []) h

/-- Every client-supplied time in the operation is non-negative. -/
def Op.timesNonneg : Op → Bool
  | .hostAction _ _ _ (some t) => decide (0 ≤ t)
  | _ => true

theorem stepState_pb {s : ServerState} (h : PbRooms s.rooms) {op : Op}
    (hop : op.timesNonneg = true) : PbRooms (stepState s op).rooms := by
  cases op with
  | join roomId username socketId rnd => exact stepJoin_pb h roomId username socketId rnd
  | chat roomId userId text => exact stepChat_pb h roomId userId text
  | hostAction roomId userId action time =>
    refine stepHostAction_pb h roomId userId action time ?_
    intro v hv
    subst hv
    exact of_decide_eq_true hop
  | takeHost roomId userId => exact stepTakeHost_pb h roomId userId
  | disconnect socketId => exact stepDisconnect_pb h socketId
  | upload roomId filename => exact stepUpload_pb h roomId filename

theorem run_pb (ops : List Op) (hops : ∀ op ∈ ops, op.timesNonneg = true) :
    PbRooms (run ops).rooms := by
  unfold run
  have key : ∀ (l : List Op) (s : ServerState), (∀ op ∈ l, op.timesNonneg = true) →
      PbRooms s.rooms → PbRooms (l.foldl stepState s).rooms := by
    intro l
    induction l with
    | nil => exact fun s _ hs => hs
    | cons op rest ih =>
      intro s hl hs
      exact ih _ (fun o ho => hl o (List.mem_cons_of_mem _ ho))
        (stepState_pb hs (hl op (List.mem_cons_self _ _)))
  exact key ops _ hops (by intro p hp; simp [ServerState.init] at hp)

/-- Decidable form: every room's position is non-negative or undefined. -/
def ServerState.playbackOkB (s : ServerState) : Bool :=
  s.rooms.all fun p =>
    match p.2.playbackState.time with
    | none => true
    | some t => decide (0 ≤ t)

/-- Counterexample to C6 as stated: the host issues a seek with the
client-supplied time -1 and the room's playback position becomes the
negative number -1 (the server stores the value verbatim, with no
validation). -/
theorem C6_counterexample :
    ((Rooms.get (run [Op.join "r" "A" 1 rnd0,
          Op.hostAction "r" 0 "seek" (some (-1))]).rooms "r").map
        (fun r => r.playbackState.time) = some (some (-1))) ∧
      (run [Op.join "r" "A" 1 rnd0,
          Op.hostAction "r" 0 "seek" (some (-1))]).playbackOkB = false := by
  constructor
  · rfl
  · rfl

/-- C6 amended: the playback position is never a negative number — it is a
non-negative number, or undefined after a seek that carried no time —
provided every client-supplied time in the trace is non-negative; an
arbitrary (negative) client-supplied seek time is stored verbatim and makes
the position negative. -/
theorem C6_amended_playback_nonneg (ops : List Op)
    (hops : ops.all Op.timesNonneg = true) :
    (run ops).playbackOkB = true := by
  have h := run_pb ops (by
    intro op hop
    exact List.all_eq_true.mp hops op hop)
  unfold ServerState.playbackOkB
  rw [List.all_eq_true]
  intro p hp
  cases ht : p.2.playbackState.time with
  | none => rfl
  | some t =>
    have := h p hp t ht
    simpa using this

/-- Witness for the amended C6: a trace whose host seeks to 2 keeps every
position non-negative. -/
theorem C6_amended_witness :
    (run [Op.join "r" "A" 1 rnd0,
        Op.hostAction "r" 0 "seek" (some 2)]).playbackOkB = true :=
  C6_amended_playback_nonneg
    [Op.join "r" "A" 1 rnd0, Op.hostAction "r" 0 "seek" (some 2)] (by rfl)
